import Mathlib

set_option linter.unusedVariables false

/-! Shallow embedding of the CNI network isolator
(`src/slave/containerizer/mesos/isolators/network/cni/cni.cpp`).

Hashmaps (`hashmap`, `hashset`) are modelled as insertion-ordered association
lists over `String` keys; filesystem state relevant to the isolator is
modelled structurally (`ContainerDir` mirrors one `rootDir/<cid>/` subtree);
awaited futures are modelled by `FutureRes` (ready / failed / discarded).
Operating-system primitives that cannot fail in the model (mkdir of a fresh
directory, bind mount, unmount) are modelled as succeeding; primitives whose
failure the code branches on in ways the claims mention (rmdir of an absent
directory) are modelled faithfully. The CNI result parser
(`spec::parseNetworkInfo`, defined outside this file's source) is a parameter
`parse` of the recovery functions. -/

/-- Parsed CNI plugin output (`spec::NetworkInfo`); its payload is opaque to
the lifecycle core, so it is modelled as an abstract wrapper. -/
structure CniNetworkInfo where
  raw : String
deriving DecidableEq, Repr

/-- Per-attachment record (`NetworkCniIsolatorProcess::NetworkInfo`). -/
structure NetworkInfo where
  networkName : String
  ifName : String
  network : Option CniNetworkInfo
deriving DecidableEq, Repr

/-- Per-container record (`NetworkCniIsolatorProcess::Info`): the hashmap
from network name to attachment. -/
structure Info where
  networkInfos : List (String × NetworkInfo)
deriving DecidableEq, Repr

/-- Loaded network configuration entry (`NetworkConfigInfo`). -/
structure NetworkConfigInfo where
  path : String
  cniType : String
deriving DecidableEq, Repr

/-- `mesos::NetworkInfo` protobuf: only the optional `name` field is read. -/
structure MesosNetworkInfo where
  name : Option String
deriving DecidableEq, Repr

/-- `ExecutorInfo.container` (`mesos::ContainerInfo`): its type and the
requested network infos. -/
structure ContainerSpec where
  typeIsMesos : Bool
  networkInfos : List MesosNetworkInfo
deriving DecidableEq, Repr

/-- `mesos::slave::ContainerConfig`: `executor_info().container()` modelled as
an option (`has_container`). -/
structure ContainerCfg where
  container : Option ContainerSpec
deriving DecidableEq, Repr

def CLONE_NEWNS : Nat := 0x00020000

def CLONE_NEWUTS : Nat := 0x04000000

def CLONE_NEWNET : Nat := 0x40000000

/-- `mesos::slave::ContainerLaunchInfo`: only `namespaces` is set here. -/
structure LaunchInfo where
  namespaces : Nat
deriving DecidableEq, Repr

/-- Lookup in the association-list model of `hashmap<string, _>`. -/
def alookup {α : Type} : List (String × α) → String → Option α
  | [], _ => none
  | (k, v) :: rest, key => if k = key then some v else alookup rest key

/-- `hashmap::contains`. -/
def acontains {α : Type} (m : List (String × α)) (key : String) : Bool :=
  (alookup m key).isSome

/-- `hashmap::put`: overwrite in place, or append a fresh binding. -/
def aput {α : Type} : List (String × α) → String → α → List (String × α)
  | [], key, v => [(key, v)]
  | (k, w) :: rest, key, v =>
    if k = key then (key, v) :: rest else (k, w) :: aput rest key v

/-- `hashmap::erase`. -/
def aerase {α : Type} (m : List (String × α)) (key : String) : List (String × α) :=
  m.filter (fun p => decide (p.1 ≠ key))

/-- Outcome of an awaited `process::Future`. -/
inductive FutureRes (α : Type) where
  | ready : α → FutureRes α
  | failed : String → FutureRes α
  | discarded : FutureRes α
deriving DecidableEq, Repr

/-- The message a non-ready future contributes in the collection loops of
`isolate()` and `_cleanup()` (`isFailed() ? failure() : "discarded"`). -/
def failureMessage : FutureRes Unit → Option String
  | .ready _ => none
  | .failed m => some m
  | .discarded => some "discarded"

/-- One iteration of the message-collection `foreach` loop. -/
def pushFailure (acc : List String) (f : FutureRes Unit) : List String :=
  match f with
  | .ready _ => acc
  | .failed m => acc ++ [m]
  | .discarded => acc ++ ["discarded"]

/-- The whole message-collection loop over the awaited futures. -/
def collectFailures (fs : List (FutureRes Unit)) : List String :=
  fs.foldl pushFailure []

/-- On-disk interface directory `rootDir/<cid>/<net>/<ifName>` together with
the optional checkpointed `network/info` file content. -/
structure InterfaceDir where
  ifName : String
  info : Option String
deriving DecidableEq, Repr

/-- On-disk network directory `rootDir/<cid>/<net>`. -/
structure NetworkDir where
  netName : String
  interfaces : List InterfaceDir
deriving DecidableEq, Repr

/-- On-disk container directory `rootDir/<cid>`; `hasNs` is the existence of
the `ns` bind-mount point file. -/
structure ContainerDir where
  cid : String
  hasNs : Bool
  networks : List NetworkDir
deriving DecidableEq, Repr

/-- The isolator's mutable state: the `infos` table, the listing of `rootDir`,
and the set of container ids whose namespace handle is currently
bind-mounted. -/
structure IsolatorState where
  infos : List (String × Info)
  disk : List ContainerDir
  nsMounts : List String
deriving DecidableEq, Repr

def findContainerDir (disk : List ContainerDir) (cid : String) : Option ContainerDir :=
  disk.find? (fun c => decide (c.cid = cid))

/-- `os::exists(paths::getContainerDir(rootDir, cid))`. -/
def containerDirExists (disk : List ContainerDir) (cid : String) : Bool :=
  (findContainerDir disk cid).isSome

/-- `os::exists(paths::getNamespacePath(rootDir, cid))`. -/
def nsFileExists (disk : List ContainerDir) (cid : String) : Bool :=
  match findContainerDir disk cid with
  | some d => d.hasNs
  | none => false

def interfaceDirExists (disk : List ContainerDir) (cid net ifName : String) : Bool :=
  disk.any (fun c => decide (c.cid = cid) && c.networks.any (fun n =>
    decide (n.netName = net) && n.interfaces.any (fun i => decide (i.ifName = ifName))))

/-- `os::rmdir` of one interface directory (recursive removal of the subtree
rooted at `rootDir/<cid>/<net>/<ifName>`; the network directory remains). -/
def removeInterfaceDir (disk : List ContainerDir) (cid net ifName : String) :
    List ContainerDir :=
  disk.map (fun c =>
    if c.cid = cid then
      { c with networks := c.networks.map (fun n =>
          if n.netName = net then
            { n with interfaces := n.interfaces.filter (fun i => decide (i.ifName ≠ ifName)) }
          else n) }
    else c)

/-- The `foreach` loop over `executorInfo.container().network_infos()` in
`NetworkCniIsolatorProcess::prepare` (cni.cpp lines 507-533): skip unnamed
entries, reject unknown names, reject duplicates, assign `ethN` interface
names with a post-incremented index, and accumulate the attachment map. -/
def prepareLoop (configs : List (String × NetworkConfigInfo)) :
    List MesosNetworkInfo → Nat → List String → List (String × NetworkInfo) →
    Except String (List (String × NetworkInfo))
  | [], _, _, acc => .ok acc
  | e :: rest, ifIndex, seen, acc =>
    match e.name with
    | none => prepareLoop configs rest ifIndex seen acc
    | some n =>
      if acontains configs n = false then
        .error ("Unknown CNI network " ++ n)
      else if decide (n ∈ seen) then
        .error ("Attempted to join CNI network " ++ n ++ " multiple times")
      else
        prepareLoop configs rest (ifIndex + 1) (n :: seen)
          (aput acc n { networkName := n, ifName := "eth" ++ toString ifIndex, network := none })

/-- `NetworkCniIsolatorProcess::prepare` (cni.cpp lines 486-545). Returns the
launch-info outcome together with the updated `infos` table. -/
def prepare (configs : List (String × NetworkConfigInfo))
    (infos : List (String × Info)) (cid : String) (cfg : ContainerCfg) :
    Except String (Option LaunchInfo) × List (String × Info) :=
  if acontains infos cid then
    (.error "Container has already been prepared", infos)
  else
    match cfg.container with
    | none => (.ok none, infos)
    | some c =>
      if c.typeIsMesos = false then
        (.error "Can only prepare CNI networks for a MESOS container", infos)
      else if c.networkInfos.isEmpty then
        (.ok none, infos)
      else
        match prepareLoop configs c.networkInfos 0 [] [] with
        | .error e => (.error e, infos)
        | .ok nis =>
          if nis.isEmpty then
            (.ok none, infos)
          else
            (.ok (some { namespaces := CLONE_NEWNET ||| CLONE_NEWNS ||| CLONE_NEWUTS }),
             aput infos cid { networkInfos := nis })

/-- The externally visible side effects of `isolate`, recorded as a trace. -/
inductive CniOp where
  | mkdirContainerDir : String → CniOp
  | touchNsFile : String → CniOp
  | mountNsHandle : String → CniOp
  | attachNet : String → String → CniOp
  | detachNet : String → String → CniOp
deriving DecidableEq, Repr

/-- `os::mkdir(containerDir)`: idempotent creation. -/
def ensureContainerDir (disk : List ContainerDir) (cid : String) : List ContainerDir :=
  if containerDirExists disk cid then disk
  else disk ++ [{ cid := cid, hasNs := false, networks := [] }]

/-- `os::touch` of the `ns` bind-mount point. -/
def setNsFile (disk : List ContainerDir) (cid : String) : List ContainerDir :=
  disk.map (fun c => if c.cid = cid then { c with hasNs := true } else c)

/-- `NetworkCniIsolatorProcess::isolate` (cni.cpp lines 548-617) together with
its await-all continuation: create the container directory, bind-mount the
namespace handle, launch one `attach` per configured network, then await all
of them and join the failure messages. `attachRes` gives the awaited outcome
of each per-network attach. -/
def isolate (st : IsolatorState) (cid : String) (pid : Nat)
    (attachRes : String → FutureRes Unit) :
    Except String Unit × IsolatorState × List CniOp :=
  match alookup st.infos cid with
  | none => (.ok (), st, [])
  | some info =>
    let disk1 := setNsFile (ensureContainerDir st.disk cid) cid
    let mounts1 := if cid ∈ st.nsMounts then st.nsMounts else cid :: st.nsMounts
    let st1 : IsolatorState := { st with disk := disk1, nsMounts := mounts1 }
    let ops := [CniOp.mkdirContainerDir cid, CniOp.touchNsFile cid, CniOp.mountNsHandle cid] ++
      info.networkInfos.map (fun p => CniOp.attachNet cid p.1)
    let messages := collectFailures (info.networkInfos.map (fun p => attachRes p.1))
    if messages.isEmpty then (.ok (), st1, ops)
    else (.error (String.intercalate "\n" messages), st1, ops)

/-- `NetworkCniIsolatorProcess::_cleanup` (cni.cpp lines 833-876): the
continuation run after awaiting all detaches. On any non-ready detach, fail
with the joined messages and leave every piece of state untouched; otherwise
unmount the namespace handle if its mount point file exists, remove the
container directory (an error if it is absent, mirroring `os::rmdir`), and
erase the `infos` entry. -/
def cleanupCont (st : IsolatorState) (cid : String)
    (detaches : List (FutureRes Unit)) : Except String Unit × IsolatorState :=
  let messages := collectFailures detaches
  if messages.isEmpty = false then
    (.error (String.intercalate "\n" messages), st)
  else
    let st1 : IsolatorState :=
      if nsFileExists st.disk cid then
        { st with nsMounts := st.nsMounts.filter (fun m => decide (m ≠ cid)) }
      else st
    if containerDirExists st1.disk cid then
      (.ok (), { st1 with
        disk := st1.disk.filter (fun c => decide (c.cid ≠ cid)),
        infos := aerase st1.infos cid })
    else
      (.error "Failed to remove the container directory", st1)

/-- `NetworkCniIsolatorProcess::cleanup` (cni.cpp lines 807-830): no-op when
`infos` has no entry, otherwise launch one `detach` per attachment and hand
the awaited results to `_cleanup`. `detachRes` gives the awaited outcome of
each per-network detach. -/
def cleanup (st : IsolatorState) (cid : String)
    (detachRes : String → FutureRes Unit) : Except String Unit × IsolatorState :=
  match alookup st.infos cid with
  | none => (.ok (), st)
  | some info => cleanupCont st cid (info.networkInfos.map (fun p => detachRes p.1))

/-- The interface name recorded in `infos` for one container and network. -/
def infoIfName (st : IsolatorState) (cid net : String) : String :=
  match alookup st.infos cid with
  | none => ""
  | some info =>
    match alookup info.networkInfos net with
    | none => ""
    | some ni => ni.ifName

/-- `NetworkCniIsolatorProcess::_detach` (cni.cpp lines 939-991): the
continuation run after awaiting the DEL subprocess reap and its stdout. On
exit status 0, remove the interface directory (an error if it is absent,
mirroring `os::rmdir`); any unobtainable or non-zero exit status is a failure
that leaves the disk untouched. -/
def detachCont (st : IsolatorState) (cid net plugin : String)
    (status : FutureRes (Option Int)) (output : FutureRes String) :
    Except String Unit × IsolatorState :=
  match status with
  | .failed m =>
    (.error ("Failed to get the exit status of the CNI plugin " ++ plugin ++
      " subprocess: " ++ m), st)
  | .discarded =>
    (.error ("Failed to get the exit status of the CNI plugin " ++ plugin ++
      " subprocess: discarded"), st)
  | .ready none =>
    (.error ("Failed to reap the CNI plugin " ++ plugin ++ " subprocess"), st)
  | .ready (some code) =>
    if code = 0 then
      let ifName := infoIfName st cid net
      if interfaceDirExists st.disk cid net ifName then
        (.ok (), { st with disk := removeInterfaceDir st.disk cid net ifName })
      else
        (.error "Failed to remove interface directory", st)
    else
      match output with
      | .ready out =>
        (.error ("The CNI plugin " ++ plugin ++ " failed to detach container" ++
          " from network " ++ net ++ ": " ++ out), st)
      | .failed m =>
        (.error ("Failed to read stdout from the CNI plugin " ++ plugin ++
          " subprocess: " ++ m), st)
      | .discarded =>
        (.error ("Failed to read stdout from the CNI plugin " ++ plugin ++
          " subprocess: discarded"), st)

/-- The `foreach` loop over the network subdirectories of one container in
`NetworkCniIsolatorProcess::_recover` (cni.cpp lines 399-474): reject unknown
network names, tolerate zero interface directories, reject more than one,
and rebuild the attachment (parsing the checkpointed `network/info` when it
exists). -/
def recoverNetworks (parse : String → Except String CniNetworkInfo)
    (configs : List (String × NetworkConfigInfo)) :
    List NetworkDir → List (String × NetworkInfo) →
    Except String (List (String × NetworkInfo))
  | [], acc => .ok acc
  | nd :: rest, acc =>
    if acontains configs nd.netName = false then
      .error ("Unknown CNI network name " ++ nd.netName)
    else
      match nd.interfaces with
      | [] => recoverNetworks parse configs rest acc
      | [iface] =>
        match iface.info with
        | none =>
          recoverNetworks parse configs rest (aput acc nd.netName
            { networkName := nd.netName, ifName := iface.ifName, network := none })
        | some raw =>
          match parse raw with
          | .error e => .error ("Failed to parse CNI network information file: " ++ e)
          | .ok ni =>
            recoverNetworks parse configs rest (aput acc nd.netName
              { networkName := nd.netName, ifName := iface.ifName, network := some ni })
      | _ => .error ("More than one interfaces detected for network " ++ nd.netName)

/-- `NetworkCniIsolatorProcess::_recover` (cni.cpp lines 368-483): succeed
without touching `infos` when the container directory is absent; otherwise
rebuild the attachment map from disk and insert it (even when empty). -/
def recoverContainer (parse : String → Except String CniNetworkInfo)
    (configs : List (String × NetworkConfigInfo)) (disk : List ContainerDir)
    (infos : List (String × Info)) (cid : String) :
    Except String (List (String × Info)) :=
  match findContainerDir disk cid with
  | none => .ok infos
  | some d =>
    match recoverNetworks parse configs d.networks [] with
    | .error e => .error e
    | .ok ns => .ok (aput infos cid { networkInfos := ns })

/-- The value `_recover` would insert for a container, when it would succeed
with the directory present (a derived notion used to state recovery
lemmas). -/
def canonicalInfo (parse : String → Except String CniNetworkInfo)
    (configs : List (String × NetworkConfigInfo)) (disk : List ContainerDir)
    (cid : String) : Option Info :=
  match findContainerDir disk cid with
  | none => none
  | some d =>
    match recoverNetworks parse configs d.networks [] with
    | .error _ => none
    | .ok ns => some { networkInfos := ns }

/-- First phase of `NetworkCniIsolatorProcess::recover` (cni.cpp lines
319-328): `_recover` each known container, failing on the first error. -/
def recoverKnown (parse : String → Except String CniNetworkInfo)
    (configs : List (String × NetworkConfigInfo)) (disk : List ContainerDir) :
    List String → List (String × Info) → Except String (List (String × Info))
  | [], infos => .ok infos
  | cid :: rest, infos =>
    match recoverContainer parse configs disk infos cid with
    | .error e =>
      .error ("Failed to recover CNI network information for container " ++
        cid ++ ": " ++ e)
    | .ok infos1 => recoverKnown parse configs disk rest infos1

/-- Second phase of `NetworkCniIsolatorProcess::recover` (cni.cpp lines
330-364): walk the `rootDir` listing; skip ids already in `infos`, `_recover`
the rest, and synthesize a `cleanup` for ids not in the orphan set. The
synthesized cleanups are recorded by id; their futures are discarded by the
code, so their outcomes never reach the caller. -/
def recoverOrphans (parse : String → Except String CniNetworkInfo)
    (configs : List (String × NetworkConfigInfo)) (disk : List ContainerDir)
    (orphans : List String) :
    List ContainerDir → List (String × Info) → List String →
    Except String (List (String × Info) × List String)
  | [], infos, cleanups => .ok (infos, cleanups)
  | d :: rest, infos, cleanups =>
    if acontains infos d.cid then
      recoverOrphans parse configs disk orphans rest infos cleanups
    else
      match recoverContainer parse configs disk infos d.cid with
      | .error e =>
        .error ("Failed to recover CNI network information for orphan container " ++
          d.cid ++ ": " ++ e)
      | .ok infos1 =>
        if decide (d.cid ∈ orphans) then
          recoverOrphans parse configs disk orphans rest infos1 cleanups
        else
          recoverOrphans parse configs disk orphans rest infos1 (cleanups ++ [d.cid])

/-- `NetworkCniIsolatorProcess::recover` (cni.cpp lines 315-365). Returns the
rebuilt `infos` table and the ids of the synthesized cleanups. -/
def recover (parse : String → Except String CniNetworkInfo)
    (configs : List (String × NetworkConfigInfo)) (disk : List ContainerDir)
    (infos : List (String × Info)) (known orphans : List String) :
    Except String (List (String × Info) × List String) :=
  match recoverKnown parse configs disk known infos with
  | .error e => .error e
  | .ok infos1 => recoverOrphans parse configs disk orphans disk infos1 []

/-- `recover` observed together with the outcomes of the synthesized
cleanups: the code calls `cleanup(containerId)` and drops the returned
future on the floor, so the outcomes are computed and then discarded. -/
def recoverRun (parse : String → Except String CniNetworkInfo)
    (configs : List (String × NetworkConfigInfo)) (disk : List ContainerDir)
    (infos : List (String × Info)) (known orphans : List String)
    (outcome : String → FutureRes Unit) : Except String Unit :=
  match recover parse configs disk infos known orphans with
  | .error e => .error e
  | .ok (_, cleanups) =>
    let _ := cleanups.map outcome
    .ok ()

/-- The attachment map that `prepare` builds for a run of named, known,
pairwise-distinct networks, starting at interface index `i`. -/
def expectedAttachments : List String → Nat → List (String × NetworkInfo)
  | [], _ => []
  | n :: rest, i =>
    (n, { networkName := n, ifName := "eth" ++ toString i, network := none }) ::
      expectedAttachments rest (i + 1)

/-! ### Basic lemmas about the hashmap and filesystem models -/

theorem alookup_aput_self {α : Type} (m : List (String × α)) (k : String) (v : α) :
    alookup (aput m k v) k = some v := by
  induction m with
  | nil => simp [aput, alookup]
  | cons p rest ih =>
    obtain ⟨k1, w⟩ := p
    by_cases h : k1 = k
    · simp [aput, h, alookup]
    · simp [aput, h, alookup, ih]

theorem alookup_aput_ne {α : Type} (m : List (String × α)) (k k2 : String) (v : α)
    (h : k2 ≠ k) : alookup (aput m k v) k2 = alookup m k2 := by
  have hne : ¬(k = k2) := fun hh => h hh.symm
  induction m with
  | nil =>
    show (if k = k2 then some v else alookup [] k2) = alookup [] k2
    rw [if_neg hne]
  | cons p rest ih =>
    obtain ⟨k1, w⟩ := p
    by_cases h1 : k1 = k
    · subst h1
      simp only [aput, if_pos rfl, alookup]
      rw [if_neg hne, if_neg hne]
    · simp only [aput, if_neg h1, alookup]
      rw [ih]

theorem acontains_aput_self {α : Type} (m : List (String × α)) (k : String) (v : α) :
    acontains (aput m k v) k = true := by
  simp [acontains, alookup_aput_self]

theorem acontains_aput_ne {α : Type} (m : List (String × α)) (k k2 : String) (v : α)
    (h : k2 ≠ k) : acontains (aput m k v) k2 = acontains m k2 := by
  simp [acontains, alookup_aput_ne m k k2 v h]

theorem aput_eq_self {α : Type} (m : List (String × α)) (k : String) (v : α)
    (h : alookup m k = some v) : aput m k v = m := by
  induction m with
  | nil => simp [alookup] at h
  | cons p rest ih =>
    obtain ⟨k1, w⟩ := p
    by_cases h1 : k1 = k
    · subst h1
      simp [alookup] at h
      simp [aput, h]
    · simp [alookup, h1] at h
      simp [aput, h1, ih h]

theorem aput_append {α : Type} (m : List (String × α)) (k : String) (v : α)
    (h : acontains m k = false) : aput m k v = m ++ [(k, v)] := by
  induction m with
  | nil => simp [aput]
  | cons p rest ih =>
    obtain ⟨k1, w⟩ := p
    by_cases h1 : k1 = k
    · subst h1
      simp [acontains, alookup] at h
    · simp [acontains, alookup, h1] at h
      simp [aput, h1, ih (by simp [acontains, h])]

theorem acontains_append {α : Type} (m1 m2 : List (String × α)) (k : String) :
    acontains (m1 ++ m2) k = (acontains m1 k || acontains m2 k) := by
  induction m1 with
  | nil => simp [acontains, alookup]
  | cons p rest ih =>
    obtain ⟨k1, w⟩ := p
    by_cases h1 : k1 = k
    · simp [acontains, alookup, h1]
    · simp only [List.cons_append]
      simp [acontains, alookup, h1] at ih ⊢
      exact ih

theorem acontains_aerase_self {α : Type} (m : List (String × α)) (k : String) :
    acontains (aerase m k) k = false := by
  induction m with
  | nil => simp [aerase, acontains, alookup]
  | cons p rest ih =>
    obtain ⟨k1, w⟩ := p
    by_cases h1 : k1 = k
    · simpa [aerase, h1] using ih
    · simpa [aerase, h1, acontains, alookup] using ih

theorem foldl_pushFailure (fs : List (FutureRes Unit)) (acc : List String) :
    fs.foldl pushFailure acc = acc ++ fs.filterMap failureMessage := by
  induction fs generalizing acc with
  | nil => simp
  | cons f rest ih =>
    cases f <;> simp [pushFailure, failureMessage, ih]

theorem collectFailures_eq (fs : List (FutureRes Unit)) :
    collectFailures fs = fs.filterMap failureMessage := by
  simp [collectFailures, foldl_pushFailure]

theorem dirExists_of_mem (disk : List ContainerDir) (d : ContainerDir) (h : d ∈ disk) :
    containerDirExists disk d.cid = true := by
  simp only [containerDirExists, findContainerDir, List.find?_isSome]
  exact ⟨d, h, by simp⟩

theorem dirExists_of_nsFile (disk : List ContainerDir) (cid : String)
    (h : nsFileExists disk cid = true) : containerDirExists disk cid = true := by
  unfold nsFileExists at h
  unfold containerDirExists
  cases hf : findContainerDir disk cid with
  | none => rw [hf] at h; exact absurd h (by simp)
  | some d => simp

theorem containerDirExists_filter_self (disk : List ContainerDir) (cid : String) :
    containerDirExists (disk.filter (fun c => decide (c.cid ≠ cid))) cid = false := by
  simp only [containerDirExists, findContainerDir, List.find?_isSome]
  simp [List.mem_filter]

theorem interfaces_filter_no_if (l : List InterfaceDir) (ifName : String) :
    (l.filter (fun i => decide (i.ifName ≠ ifName))).any
      (fun i => decide (i.ifName = ifName)) = false := by
  rw [List.any_eq_false]
  intro i hi
  rw [List.mem_filter] at hi
  simpa using hi.2

theorem networks_map_no_if (nets : List NetworkDir) (net ifName : String) :
    (nets.map (fun n =>
      if n.netName = net then
        { n with interfaces := n.interfaces.filter (fun i => decide (i.ifName ≠ ifName)) }
      else n)).any (fun n =>
        decide (n.netName = net) &&
          n.interfaces.any (fun i => decide (i.ifName = ifName))) = false := by
  rw [List.any_eq_false]
  intro n hn
  rw [List.mem_map] at hn
  obtain ⟨n0, hn0, rfl⟩ := hn
  by_cases h2 : n0.netName = net
  · rw [if_pos h2]
    simp [interfaces_filter_no_if]
  · rw [if_neg h2]
    simp [h2]

theorem interfaceDirExists_remove (disk : List ContainerDir) (cid net ifName : String) :
    interfaceDirExists (removeInterfaceDir disk cid net ifName) cid net ifName = false := by
  rw [interfaceDirExists, List.any_eq_false]
  intro c hc
  rw [removeInterfaceDir, List.mem_map] at hc
  obtain ⟨c0, hc0, rfl⟩ := hc
  by_cases h1 : c0.cid = cid
  · rw [if_pos h1]
    intro hcontra
    rw [Bool.and_eq_true] at hcontra
    exact Bool.false_ne_true
      ((networks_map_no_if c0.networks net ifName).symm.trans hcontra.2)
  · rw [if_neg h1]
    simp [h1]

/-! ### Lemmas about prepare -/

theorem expectedAttachments_length (names : List String) (i : Nat) :
    (expectedAttachments names i).length = names.length := by
  induction names generalizing i with
  | nil => rfl
  | cons n rest ih => simp [expectedAttachments, ih]

theorem expectedAttachments_getElem? (names : List String) (i j : Nat) (n : String)
    (h : names[j]? = some n) :
    (expectedAttachments names i)[j]? =
      some (n, { networkName := n, ifName := "eth" ++ toString (i + j), network := none }) := by
  induction names generalizing i j with
  | nil => simp at h
  | cons m rest ih =>
    cases j with
    | zero =>
      simp at h
      subst h
      simp [expectedAttachments]
    | succ j1 =>
      simp only [List.getElem?_cons_succ] at h
      have hrec := ih (i + 1) j1 h
      have harith : i + 1 + j1 = i + (j1 + 1) := by omega
      rw [harith] at hrec
      simpa [expectedAttachments] using hrec

theorem prepareLoop_ok_of (configs : List (String × NetworkConfigInfo))
    (names : List String) :
    ∀ (i : Nat) (seen : List String) (acc : List (String × NetworkInfo)),
    (∀ n ∈ names, acontains configs n = true) →
    (∀ n ∈ names, n ∉ seen) →
    (∀ n ∈ names, acontains acc n = false) →
    names.Nodup →
    prepareLoop configs (names.map (fun s => ⟨some s⟩)) i seen acc =
      .ok (acc ++ expectedAttachments names i) := by
  induction names with
  | nil => intro i seen acc _ _ _ _; simp [prepareLoop, expectedAttachments]
  | cons n rest ih =>
    intro i seen acc hknown hseen hacc hnd
    have hk : acontains configs n = true := hknown n (by simp)
    have hs : n ∉ seen := hseen n (by simp)
    have ha : acontains acc n = false := hacc n (by simp)
    have hn_rest : n ∉ rest := (List.nodup_cons.mp hnd).1
    have hnd_rest : rest.Nodup := (List.nodup_cons.mp hnd).2
    have h1 : ∀ m ∈ rest, acontains configs m = true :=
      fun m hm => hknown m (by simp [hm])
    have h2 : ∀ m ∈ rest, m ∉ n :: seen := by
      intro m hm
      simp only [List.mem_cons, not_or]
      exact ⟨fun he => hn_rest (he ▸ hm), hseen m (by simp [hm])⟩
    have h3 : ∀ m ∈ rest, acontains
        (acc ++ [(n, (⟨n, "eth" ++ toString i, none⟩ : NetworkInfo))]) m = false := by
      intro m hm
      rw [acontains_append]
      have hb := hacc m (by simp [hm])
      have hc : acontains [(n, (⟨n, "eth" ++ toString i, none⟩ : NetworkInfo))] m = false := by
        simp only [acontains, alookup]
        rw [if_neg (fun he : n = m => hn_rest (by rw [he]; exact hm))]
        simp [alookup]
      rw [hb, hc]
      rfl
    simp only [List.map_cons, prepareLoop]
    rw [if_neg (by rw [hk]; simp)]
    rw [if_neg (by simpa using hs)]
    rw [aput_append acc n _ ha]
    rw [ih (i + 1) (n :: seen) _ h1 h2 h3 hnd_rest]
    simp [expectedAttachments]

theorem prepareLoop_ok_names (configs : List (String × NetworkConfigInfo)) :
    ∀ (entries : List MesosNetworkInfo) (i : Nat) (seen : List String)
      (acc : List (String × NetworkInfo)) (res : List (String × NetworkInfo)),
    prepareLoop configs entries i seen acc = .ok res →
    (entries.filterMap MesosNetworkInfo.name).Nodup ∧
    ∀ s ∈ entries.filterMap MesosNetworkInfo.name,
      acontains configs s = true ∧ s ∉ seen := by
  intro entries
  induction entries with
  | nil => intro i seen acc res _; simp
  | cons e rest ih =>
    intro i seen acc res h
    cases he : e.name with
    | none =>
      simp only [prepareLoop, he] at h
      have hr := ih i seen acc res h
      simpa [List.filterMap_cons, he] using hr
    | some n =>
      simp only [prepareLoop, he] at h
      by_cases hk : acontains configs n = false
      · rw [if_pos hk] at h; exact absurd h (by simp)
      · rw [if_neg hk] at h
        by_cases hs : n ∈ seen
        · rw [if_pos (by simpa using hs)] at h; exact absurd h (by simp)
        · rw [if_neg (by simpa using hs)] at h
          have hr := ih (i + 1) (n :: seen) _ res h
          have hknown : acontains configs n = true := by
            cases hc : acontains configs n with
            | false => exact absurd hc hk
            | true => rfl
          refine ⟨?_, ?_⟩
          · rw [List.filterMap_cons, he, List.nodup_cons]
            refine ⟨fun hmem => ?_, hr.1⟩
            have hx := (hr.2 n hmem).2
            simp at hx
          · intro s hsmem
            rw [List.filterMap_cons, he, List.mem_cons] at hsmem
            cases hsmem with
            | inl heq => exact heq ▸ ⟨hknown, hs⟩
            | inr hmem =>
              have hx := hr.2 s hmem
              exact ⟨hx.1, fun hcon => hx.2 (by simp [hcon])⟩

/-! ### Lemmas about recovery -/

theorem recoverContainer_cases (parse : String → Except String CniNetworkInfo)
    (configs : List (String × NetworkConfigInfo)) (disk : List ContainerDir)
    (inf inf' : List (String × Info)) (cid : String)
    (h : recoverContainer parse configs disk inf cid = .ok inf') :
    inf' = inf ∨
      ∃ i, canonicalInfo parse configs disk cid = some i ∧ inf' = aput inf cid i := by
  unfold recoverContainer at h
  split at h
  · injection h with h2
    exact Or.inl h2.symm
  · rename_i d hfd
    split at h
    · exact absurd h (by simp)
    · rename_i ns hns
      injection h with h2
      right
      refine ⟨⟨ns⟩, ?_, h2.symm⟩
      simp [canonicalInfo, hfd, hns]

theorem recoverContainer_ok_of_dir (parse : String → Except String CniNetworkInfo)
    (configs : List (String × NetworkConfigInfo)) (disk : List ContainerDir)
    (inf inf' : List (String × Info)) (cid : String)
    (hdir : containerDirExists disk cid = true)
    (h : recoverContainer parse configs disk inf cid = .ok inf') :
    ∃ i, canonicalInfo parse configs disk cid = some i ∧ inf' = aput inf cid i := by
  unfold recoverContainer at h
  split at h
  · rename_i hfd
    rw [containerDirExists, hfd] at hdir
    simp at hdir
  · rename_i d hfd
    split at h
    · exact absurd h (by simp)
    · rename_i ns hns
      injection h with h2
      refine ⟨⟨ns⟩, ?_, h2.symm⟩
      simp [canonicalInfo, hfd, hns]

theorem recoverKnown_lookup (parse : String → Except String CniNetworkInfo)
    (configs : List (String × NetworkConfigInfo)) (disk : List ContainerDir) :
    ∀ (kn : List String) (inf inf' : List (String × Info)),
    recoverKnown parse configs disk kn inf = .ok inf' →
    ∀ x, alookup inf' x = alookup inf x ∨
      ∃ i, canonicalInfo parse configs disk x = some i ∧ alookup inf' x = some i := by
  intro kn
  induction kn with
  | nil =>
    intro inf inf' h x
    simp only [recoverKnown] at h
    injection h with h2
    exact Or.inl (by rw [h2])
  | cons c rest ih =>
    intro inf inf' h x
    simp only [recoverKnown] at h
    split at h
    · exact absurd h (by simp)
    · rename_i inf1 hr
      have hm := ih inf1 inf' h x
      cases hm with
      | inr hcan => exact Or.inr hcan
      | inl heq =>
        have hc := recoverContainer_cases parse configs disk inf inf1 c hr
        cases hc with
        | inl he => exact Or.inl (by rw [heq, he])
        | inr hex =>
          obtain ⟨i, hci, hputs⟩ := hex
          by_cases hx : x = c
          · subst hx
            exact Or.inr ⟨i, hci, by rw [heq, hputs, alookup_aput_self]⟩
          · exact Or.inl (by rw [heq, hputs, alookup_aput_ne _ _ _ _ hx])

theorem recoverKnown_mem (parse : String → Except String CniNetworkInfo)
    (configs : List (String × NetworkConfigInfo)) (disk : List ContainerDir) :
    ∀ (kn : List String) (inf inf' : List (String × Info)),
    recoverKnown parse configs disk kn inf = .ok inf' →
    ∀ c ∈ kn, containerDirExists disk c = true →
    ∃ i, canonicalInfo parse configs disk c = some i ∧ alookup inf' c = some i := by
  intro kn
  induction kn with
  | nil => intro inf inf' h c hc _; simp at hc
  | cons c0 rest ih =>
    intro inf inf' h c hc hdir
    simp only [recoverKnown] at h
    split at h
    · exact absurd h (by simp)
    · rename_i inf1 hr
      by_cases hcc : c = c0
      · subst hcc
        obtain ⟨i, hci, hputs⟩ :=
          recoverContainer_ok_of_dir parse configs disk inf inf1 c hdir hr
        have hlook1 : alookup inf1 c = some i := by
          rw [hputs]; exact alookup_aput_self inf c i
        have hp := recoverKnown_lookup parse configs disk rest inf1 inf' h c
        cases hp with
        | inl he => exact ⟨i, hci, by rw [he, hlook1]⟩
        | inr hex => exact hex
      · have hcr : c ∈ rest := by
          cases List.mem_cons.mp hc with
          | inl h1 => exact absurd h1 hcc
          | inr h2 => exact h2
        exact ih inf1 inf' h c hcr hdir

theorem recoverKnown_keys (parse : String → Except String CniNetworkInfo)
    (configs : List (String × NetworkConfigInfo)) (disk : List ContainerDir) :
    ∀ (kn : List String) (inf inf' : List (String × Info)),
    recoverKnown parse configs disk kn inf = .ok inf' →
    ∀ x, acontains inf' x = true → acontains inf x = true ∨ x ∈ kn := by
  intro kn
  induction kn with
  | nil =>
    intro inf inf' h x hx
    simp only [recoverKnown] at h
    injection h with h2
    exact Or.inl (by rw [← h2] at hx; exact hx)
  | cons c rest ih =>
    intro inf inf' h x hx
    simp only [recoverKnown] at h
    split at h
    · exact absurd h (by simp)
    · rename_i inf1 hr
      have hm := ih inf1 inf' h x hx
      cases hm with
      | inr hmem => exact Or.inr (by simp [hmem])
      | inl h1 =>
        have hc := recoverContainer_cases parse configs disk inf inf1 c hr
        cases hc with
        | inl he => exact Or.inl (by rw [← he]; exact h1)
        | inr hex =>
          obtain ⟨i, _, hputs⟩ := hex
          by_cases hxc : x = c
          · exact Or.inr (by simp [hxc])
          · rw [hputs, acontains_aput_ne _ _ _ _ hxc] at h1
            exact Or.inl h1

theorem recoverOrphans_lookup (parse : String → Except String CniNetworkInfo)
    (configs : List (String × NetworkConfigInfo)) (disk : List ContainerDir)
    (orph : List String) :
    ∀ (ds : List ContainerDir) (inf : List (String × Info)) (cs : List String)
      (inf' : List (String × Info)) (cs' : List String),
    recoverOrphans parse configs disk orph ds inf cs = .ok (inf', cs') →
    ∀ x, alookup inf' x = alookup inf x ∨
      ∃ i, canonicalInfo parse configs disk x = some i ∧ alookup inf' x = some i := by
  intro ds
  induction ds with
  | nil =>
    intro inf cs inf' cs' h x
    simp only [recoverOrphans] at h
    injection h with h2
    rw [Prod.mk.injEq] at h2
    exact Or.inl (by rw [h2.1])
  | cons d rest ih =>
    intro inf cs inf' cs' h x
    simp only [recoverOrphans] at h
    split at h
    · exact ih inf cs inf' cs' h x
    · split at h
      · exact absurd h (by simp)
      · rename_i inf1 hr
        have hprop : ∀ cs2, recoverOrphans parse configs disk orph rest inf1 cs2 =
            .ok (inf', cs') →
            alookup inf' x = alookup inf x ∨
              ∃ i, canonicalInfo parse configs disk x = some i ∧
                alookup inf' x = some i := by
          intro cs2 hh
          have hm := ih inf1 cs2 inf' cs' hh x
          cases hm with
          | inr hcan => exact Or.inr hcan
          | inl heq =>
            have hc := recoverContainer_cases parse configs disk inf inf1 d.cid hr
            cases hc with
            | inl he => exact Or.inl (by rw [heq, he])
            | inr hex =>
              obtain ⟨i, hci, hputs⟩ := hex
              by_cases hx : x = d.cid
              · subst hx
                exact Or.inr ⟨i, hci, by rw [heq, hputs, alookup_aput_self]⟩
              · exact Or.inl (by rw [heq, hputs, alookup_aput_ne _ _ _ _ hx])
        split at h
        · exact hprop cs h
        · exact hprop (cs ++ [d.cid]) h

theorem recoverOrphans_contains (parse : String → Except String CniNetworkInfo)
    (configs : List (String × NetworkConfigInfo)) (disk : List ContainerDir)
    (orph : List String) (ds : List ContainerDir) (inf : List (String × Info))
    (cs : List String) (inf' : List (String × Info)) (cs' : List String)
    (h : recoverOrphans parse configs disk orph ds inf cs = .ok (inf', cs'))
    (x : String) (hx : acontains inf x = true) : acontains inf' x = true := by
  have hm := recoverOrphans_lookup parse configs disk orph ds inf cs inf' cs' h x
  cases hm with
  | inl he => rw [acontains, he]; exact hx
  | inr hex =>
    obtain ⟨i, _, hl⟩ := hex
    rw [acontains, hl]
    rfl

theorem recoverOrphans_covers (parse : String → Except String CniNetworkInfo)
    (configs : List (String × NetworkConfigInfo)) (disk : List ContainerDir)
    (orph : List String) :
    ∀ (ds : List ContainerDir) (inf : List (String × Info)) (cs : List String)
      (inf' : List (String × Info)) (cs' : List String),
    recoverOrphans parse configs disk orph ds inf cs = .ok (inf', cs') →
    (∀ d ∈ ds, containerDirExists disk d.cid = true) →
    ∀ d ∈ ds, acontains inf' d.cid = true := by
  intro ds
  induction ds with
  | nil => intro inf cs inf' cs' _ _ d hd; simp at hd
  | cons d0 rest ih =>
    intro inf cs inf' cs' h hdirs d hd
    simp only [recoverOrphans] at h
    split at h
    · rename_i hcont
      cases List.mem_cons.mp hd with
      | inl h1 =>
        subst h1
        exact recoverOrphans_contains parse configs disk orph rest inf cs inf' cs' h
          d.cid hcont
      | inr h2 =>
        exact ih inf cs inf' cs' h (fun d2 hd2 => hdirs d2 (by simp [hd2])) d h2
    · rename_i hncont
      split at h
      · exact absurd h (by simp)
      · rename_i inf1 hr
        have hdir0 : containerDirExists disk d0.cid = true := hdirs d0 (by simp)
        obtain ⟨i, hci, hputs⟩ :=
          recoverContainer_ok_of_dir parse configs disk inf inf1 d0.cid hdir0 hr
        have hc1 : acontains inf1 d0.cid = true := by
          rw [hputs]; exact acontains_aput_self inf d0.cid i
        have hfin : ∀ cs2, recoverOrphans parse configs disk orph rest inf1 cs2 =
            .ok (inf', cs') → acontains inf' d.cid = true := by
          intro cs2 hh
          cases List.mem_cons.mp hd with
          | inl h1 =>
            subst h1
            exact recoverOrphans_contains parse configs disk orph rest inf1 cs2 inf' cs'
              hh d.cid hc1
          | inr h2 =>
            exact ih inf1 cs2 inf' cs' hh (fun d2 hd2 => hdirs d2 (by simp [hd2])) d h2
        split at h
        · exact hfin cs h
        · exact hfin (cs ++ [d0.cid]) h

theorem recoverOrphans_cs_mono (parse : String → Except String CniNetworkInfo)
    (configs : List (String × NetworkConfigInfo)) (disk : List ContainerDir)
    (orph : List String) :
    ∀ (ds : List ContainerDir) (inf : List (String × Info)) (cs : List String)
      (inf' : List (String × Info)) (cs' : List String),
    recoverOrphans parse configs disk orph ds inf cs = .ok (inf', cs') →
    ∀ x ∈ cs, x ∈ cs' := by
  intro ds
  induction ds with
  | nil =>
    intro inf cs inf' cs' h x hx
    simp only [recoverOrphans] at h
    injection h with h2
    rw [Prod.mk.injEq] at h2
    rw [← h2.2]
    exact hx
  | cons d rest ih =>
    intro inf cs inf' cs' h x hx
    simp only [recoverOrphans] at h
    split at h
    · exact ih inf cs inf' cs' h x hx
    · split at h
      · exact absurd h (by simp)
      · rename_i inf1 hr
        split at h
        · exact ih inf1 cs inf' cs' h x hx
        · exact ih inf1 (cs ++ [d.cid]) inf' cs' h x (by simp [hx])

theorem recoverOrphans_cleanups (parse : String → Except String CniNetworkInfo)
    (configs : List (String × NetworkConfigInfo)) (disk : List ContainerDir)
    (orph : List String) :
    ∀ (ds : List ContainerDir) (inf : List (String × Info)) (cs : List String)
      (inf' : List (String × Info)) (cs' : List String),
    recoverOrphans parse configs disk orph ds inf cs = .ok (inf', cs') →
    ∀ d ∈ ds, d.cid ∉ orph → acontains inf d.cid = false → d.cid ∈ cs' := by
  intro ds
  induction ds with
  | nil => intro inf cs inf' cs' _ d hd; simp at hd
  | cons d0 rest ih =>
    intro inf cs inf' cs' h d hd horph hfresh
    simp only [recoverOrphans] at h
    split at h
    · rename_i hcont
      cases List.mem_cons.mp hd with
      | inl h1 =>
        subst h1
        rw [hfresh] at hcont
        exact absurd hcont (by simp)
      | inr h2 => exact ih inf cs inf' cs' h d h2 horph hfresh
    · rename_i hncont
      split at h
      · exact absurd h (by simp)
      · rename_i inf1 hr
        have hpres : d.cid ≠ d0.cid → acontains inf1 d.cid = false := by
          intro hne
          have hc := recoverContainer_cases parse configs disk inf inf1 d0.cid hr
          cases hc with
          | inl he => rw [he]; exact hfresh
          | inr hex =>
            obtain ⟨i, _, hputs⟩ := hex
            rw [hputs, acontains_aput_ne _ _ _ _ hne]
            exact hfresh
        split at h
        · rename_i horph0
          have hne : d.cid ≠ d0.cid := by
            intro he
            rw [he] at horph
            exact horph (by simpa using horph0)
          have hd2 : d ∈ rest := by
            cases List.mem_cons.mp hd with
            | inl h1 => exact absurd (by rw [h1]) hne
            | inr h2 => exact h2
          exact ih inf1 cs inf' cs' h d hd2 horph (hpres hne)
        · rename_i horph0
          by_cases hne : d.cid = d0.cid
          · have hmem : d.cid ∈ cs ++ [d0.cid] := by rw [hne]; simp
            exact recoverOrphans_cs_mono parse configs disk orph rest inf1
              (cs ++ [d0.cid]) inf' cs' h d.cid hmem
          · have hd2 : d ∈ rest := by
              cases List.mem_cons.mp hd with
              | inl h1 => exact absurd (by rw [h1]) hne
              | inr h2 => exact h2
            exact ih inf1 (cs ++ [d0.cid]) inf' cs' h d hd2 horph (hpres hne)

theorem recoverKnown_id (parse : String → Except String CniNetworkInfo)
    (configs : List (String × NetworkConfigInfo)) (disk : List ContainerDir) :
    ∀ (kn : List String) (inf : List (String × Info)),
    (∀ c ∈ kn, containerDirExists disk c = true →
      ∃ i, canonicalInfo parse configs disk c = some i ∧ alookup inf c = some i) →
    recoverKnown parse configs disk kn inf = .ok inf := by
  intro kn
  induction kn with
  | nil => intro inf _; rfl
  | cons c rest ih =>
    intro inf hh
    have hstep : recoverContainer parse configs disk inf c = .ok inf := by
      cases hfd : findContainerDir disk c with
      | none => unfold recoverContainer; rw [hfd]
      | some d =>
        have hdir : containerDirExists disk c = true := by
          rw [containerDirExists, hfd]; rfl
        obtain ⟨i, hci, hli⟩ := hh c (by simp) hdir
        cases hns : recoverNetworks parse configs d.networks [] with
        | error e =>
          have hnone : canonicalInfo parse configs disk c = none := by
            simp [canonicalInfo, hfd, hns]
          rw [hnone] at hci
          exact absurd hci (by simp)
        | ok ns =>
          have hcan : canonicalInfo parse configs disk c = some ⟨ns⟩ := by
            simp [canonicalInfo, hfd, hns]
          rw [hcan] at hci
          injection hci with hci2
          have hself : aput inf c ⟨ns⟩ = inf :=
            aput_eq_self inf c ⟨ns⟩ (by rw [hci2]; exact hli)
          simp [recoverContainer, hfd, hns, hself]
    simp only [recoverKnown]
    rw [hstep]
    exact ih inf (fun c2 hc2 => hh c2 (by simp [hc2]))

theorem recoverOrphans_id (parse : String → Except String CniNetworkInfo)
    (configs : List (String × NetworkConfigInfo)) (disk : List ContainerDir)
    (orph : List String) :
    ∀ (ds : List ContainerDir) (inf : List (String × Info)) (cs : List String),
    (∀ d ∈ ds, acontains inf d.cid = true) →
    recoverOrphans parse configs disk orph ds inf cs = .ok (inf, cs) := by
  intro ds
  induction ds with
  | nil => intro inf cs _; rfl
  | cons d rest ih =>
    intro inf cs hh
    simp only [recoverOrphans]
    rw [if_pos (hh d (by simp))]
    exact ih inf cs (fun d2 hd2 => hh d2 (by simp [hd2]))

/-! ### Claim theorems -/

/-- C1: for every container id not present in `infos` and every container
config whose executor has a MESOS container with K (K at least 1) NetworkInfo
entries carrying distinct names all present in the loaded config map,
`prepare(cid, cfg)` inserts `infos[cid]` with exactly K attachments whose
interface names are eth0..eth(K-1) assigned in request order over the named
entries, and returns a launch info whose namespaces field is
CLONE_NEWNET or-ed with CLONE_NEWNS and CLONE_NEWUTS. -/
theorem prepare_assigns_eth_interfaces
    (configs : List (String × NetworkConfigInfo)) (infos : List (String × Info))
    (cid : String) (names : List String) (j : Nat) (n : String)
    (hfresh : acontains infos cid = false)
    (hne : names ≠ [])
    (hnd : names.Nodup)
    (hknown : ∀ s ∈ names, acontains configs s = true)
    (hj : names[j]? = some n) :
    prepare configs infos cid ⟨some ⟨true, names.map (fun s => ⟨some s⟩)⟩⟩ =
      (.ok (some ⟨CLONE_NEWNET ||| CLONE_NEWNS ||| CLONE_NEWUTS⟩),
        aput infos cid ⟨expectedAttachments names 0⟩) ∧
    (expectedAttachments names 0).length = names.length ∧
    (expectedAttachments names 0)[j]? =
      some (n, ⟨n, "eth" ++ toString j, none⟩) := by
  obtain ⟨n0, rest, rfl⟩ : ∃ n0 rest, names = n0 :: rest := by
    cases names with
    | nil => exact absurd rfl hne
    | cons a b => exact ⟨a, b, rfl⟩
  refine ⟨?_, expectedAttachments_length _ 0,
    by simpa using expectedAttachments_getElem? (n0 :: rest) 0 j n hj⟩
  have hloop := prepareLoop_ok_of configs (n0 :: rest) 0 [] []
    hknown (by simp) (fun m _ => rfl) hnd
  rw [List.map_cons] at hloop
  simp [prepare, hfresh, hloop, expectedAttachments]

/-- C1 witness. -/
theorem prepare_assigns_eth_interfaces_witness :
    prepare [("net1", ⟨"/p1", "bridge"⟩), ("net2", ⟨"/p2", "bridge"⟩)] [] "c1"
        ⟨some ⟨true, ["net1", "net2"].map (fun s => ⟨some s⟩)⟩⟩ =
      (.ok (some ⟨CLONE_NEWNET ||| CLONE_NEWNS ||| CLONE_NEWUTS⟩),
        aput [] "c1" ⟨expectedAttachments ["net1", "net2"] 0⟩) ∧
    (expectedAttachments ["net1", "net2"] 0).length = ["net1", "net2"].length ∧
    (expectedAttachments ["net1", "net2"] 0)[1]? =
      some ("net2", ⟨"net2", "eth" ++ toString 1, none⟩) :=
  prepare_assigns_eth_interfaces _ _ _ ["net1", "net2"] 1 "net2"
    (by decide) (by decide) (by decide) (by decide) (by decide)

/-- C7: for every fresh container id, `prepare` with a container config
containing two NetworkInfo entries with the same name, or containing a named
network not present in the loaded config map, returns a failure and leaves
`infos` unchanged. -/
theorem prepare_rejects_duplicate_or_unknown
    (configs : List (String × NetworkConfigInfo)) (infos : List (String × Info))
    (cid : String) (c : ContainerSpec)
    (hfresh : acontains infos cid = false)
    (hbad : ¬ (c.networkInfos.filterMap MesosNetworkInfo.name).Nodup ∨
      ∃ e ∈ c.networkInfos, ∃ s, e.name = some s ∧ acontains configs s = false) :
    ∃ msg, prepare configs infos cid ⟨some c⟩ = (.error msg, infos) := by
  have hne : c.networkInfos ≠ [] := by
    intro hnil
    rcases hbad with hdup | ⟨e, he, _⟩
    · rw [hnil] at hdup
      exact hdup (by simp)
    · rw [hnil] at he
      simp at he
  simp only [prepare, hfresh, Bool.false_eq_true, if_false]
  by_cases hmesos : c.typeIsMesos = false
  · rw [if_pos hmesos]
    exact ⟨_, rfl⟩
  · rw [if_neg hmesos]
    rw [if_neg (by simpa [List.isEmpty_iff] using hne)]
    cases hpl : prepareLoop configs c.networkInfos 0 [] [] with
    | error msg => exact ⟨msg, rfl⟩
    | ok res =>
      exfalso
      have hr := prepareLoop_ok_names configs c.networkInfos 0 [] [] res hpl
      rcases hbad with hdup | ⟨e, he, s, hes, hunk⟩
      · exact hdup hr.1
      · have hmem : s ∈ c.networkInfos.filterMap MesosNetworkInfo.name :=
          List.mem_filterMap.mpr ⟨e, he, hes⟩
        have hk := (hr.2 s hmem).1
        rw [hunk] at hk
        exact absurd hk (by simp)

/-- C7 witness (duplicate network). -/
theorem prepare_rejects_duplicate_or_unknown_witness :
    ∃ msg, prepare [("net1", ⟨"/p1", "bridge"⟩)] [] "c1"
      ⟨some ⟨true, [⟨some "net1"⟩, ⟨some "net1"⟩]⟩⟩ = (.error msg, []) :=
  prepare_rejects_duplicate_or_unknown _ _ _ ⟨true, [⟨some "net1"⟩, ⟨some "net1"⟩]⟩
    (by decide) (Or.inl (by decide))

/-- C2: for every container with an `infos` entry, `isolate` awaits every
per-network attach: its outcome is determined by the whole list of awaited
attach results, failing (when any attach is not ready) with the newline join
of all failed attaches' messages, not only the first; and `isolate` never
emits a detach operation. -/
theorem isolate_awaits_all_attaches_no_detach
    (st : IsolatorState) (cid : String) (pid : Nat)
    (attachRes : String → FutureRes Unit) (info : Info) (c2 n2 : String)
    (hinfo : alookup st.infos cid = some info) :
    (isolate st cid pid attachRes).1 =
      (if ((info.networkInfos.map (fun p => attachRes p.1)).filterMap
            failureMessage).isEmpty
        then .ok ()
        else .error (String.intercalate "\n"
          ((info.networkInfos.map (fun p => attachRes p.1)).filterMap
            failureMessage))) ∧
    CniOp.detachNet c2 n2 ∉ (isolate st cid pid attachRes).2.2 := by
  constructor
  · simp only [isolate, hinfo, collectFailures_eq]
    by_cases hmsg : ((info.networkInfos.map (fun p => attachRes p.1)).filterMap
        failureMessage).isEmpty = true
    · rw [if_pos hmsg, if_pos hmsg]
    · rw [if_neg hmsg, if_neg hmsg]
  · simp only [isolate, hinfo]
    split <;> simp

/-- C2 witness: two networks, both attaches failed. -/
theorem isolate_awaits_all_attaches_no_detach_witness :
    (isolate ⟨[("c1", ⟨[("net1", ⟨"net1", "eth0", none⟩),
        ("net2", ⟨"net2", "eth1", none⟩)]⟩)], [], []⟩ "c1" 7
      (fun s => FutureRes.failed ("fail " ++ s))).1 =
      (if (((⟨[("net1", ⟨"net1", "eth0", none⟩), ("net2", ⟨"net2", "eth1", none⟩)]⟩ :
            Info).networkInfos.map
              (fun p => (fun s => FutureRes.failed ("fail " ++ s)) p.1)).filterMap
            failureMessage).isEmpty
        then .ok ()
        else .error (String.intercalate "\n"
          (((⟨[("net1", ⟨"net1", "eth0", none⟩), ("net2", ⟨"net2", "eth1", none⟩)]⟩ :
            Info).networkInfos.map
              (fun p => (fun s => FutureRes.failed ("fail " ++ s)) p.1)).filterMap
            failureMessage))) ∧
    CniOp.detachNet "c1" "net1" ∉
      (isolate ⟨[("c1", ⟨[("net1", ⟨"net1", "eth0", none⟩),
        ("net2", ⟨"net2", "eth1", none⟩)]⟩)], [], []⟩ "c1" 7
      (fun s => FutureRes.failed ("fail " ++ s))).2.2 :=
  isolate_awaits_all_attaches_no_detach _ "c1" 7 _ _ "c1" "net1" rfl

/-- C3: for every container id with an `infos` entry, if any per-network
detach launched by `cleanup(cid)` fails, `cleanup` returns a failure joining
the failed detaches' messages with newlines and the whole state, in
particular `infos[cid]`, is left untouched. -/
theorem cleanup_detach_failure_preserves_state
    (st : IsolatorState) (cid : String) (detachRes : String → FutureRes Unit)
    (info : Info)
    (hinfo : alookup st.infos cid = some info)
    (hfail : (info.networkInfos.map (fun p => detachRes p.1)).filterMap
      failureMessage ≠ []) :
    cleanup st cid detachRes =
      (.error (String.intercalate "\n"
        ((info.networkInfos.map (fun p => detachRes p.1)).filterMap
          failureMessage)), st) ∧
    acontains st.infos cid = true := by
  have hempty : ((info.networkInfos.map (fun p => detachRes p.1)).filterMap
      failureMessage).isEmpty = false := by
    cases hl : (info.networkInfos.map (fun p => detachRes p.1)).filterMap
        failureMessage with
    | nil => exact absurd hl hfail
    | cons a b => rfl
  constructor
  · simp only [cleanup, hinfo, cleanupCont, collectFailures_eq]
    rw [if_pos hempty]
  · rw [acontains, hinfo]
    rfl

/-- C3 witness: one network whose detach failed. -/
theorem cleanup_detach_failure_preserves_state_witness :
    cleanup ⟨[("c1", ⟨[("net1", ⟨"net1", "eth0", none⟩)]⟩)],
        [⟨"c1", true, [⟨"net1", [⟨"eth0", some "x"⟩]⟩]⟩], ["c1"]⟩ "c1"
      (fun _ => FutureRes.failed "boom") =
      (.error (String.intercalate "\n"
        ((((⟨[("net1", ⟨"net1", "eth0", none⟩)]⟩ : Info)).networkInfos.map
          (fun p => (fun _ => FutureRes.failed "boom") p.1)).filterMap
          failureMessage)),
        ⟨[("c1", ⟨[("net1", ⟨"net1", "eth0", none⟩)]⟩)],
          [⟨"c1", true, [⟨"net1", [⟨"eth0", some "x"⟩]⟩]⟩], ["c1"]⟩) ∧
    acontains ([("c1", (⟨[("net1", ⟨"net1", "eth0", none⟩)]⟩ : Info))]) "c1" = true :=
  cleanup_detach_failure_preserves_state _ "c1" _ _ rfl (by decide)

/-- C4: for every container id, if `cleanup(cid)` returns success on a state
satisfying the reachable-state invariants (a container directory only for
containers in `infos`, a namespace bind mount only where its mount point file
exists), then afterwards the container directory does not exist, the
namespace handle is no longer mounted, and `infos` does not contain the
container. -/
theorem cleanup_success_removes_container
    (st : IsolatorState) (cid : String) (detachRes : String → FutureRes Unit)
    (st' : IsolatorState)
    (hinv1 : containerDirExists st.disk cid = true → acontains st.infos cid = true)
    (hinv2 : cid ∈ st.nsMounts → nsFileExists st.disk cid = true)
    (h : cleanup st cid detachRes = (.ok (), st')) :
    containerDirExists st'.disk cid = false ∧ cid ∉ st'.nsMounts ∧
      acontains st'.infos cid = false := by
  unfold cleanup at h
  split at h
  · rename_i hx
    injection h with h1 h2
    subst h2
    refine ⟨?_, ?_, ?_⟩
    · cases hdir : containerDirExists st.disk cid with
      | false => rfl
      | true =>
        have hc := hinv1 hdir
        rw [acontains, hx] at hc
        exact absurd hc (by simp)
    · intro hmem
      have hns := hinv2 hmem
      have hdir := dirExists_of_nsFile _ _ hns
      have hc := hinv1 hdir
      rw [acontains, hx] at hc
      exact absurd hc (by simp)
    · rw [acontains, hx]; rfl
  · rename_i info hx
    simp only [cleanupCont] at h
    split at h
    · exact absurd h (by simp)
    · by_cases hns : nsFileExists st.disk cid = true
      · rw [if_pos hns] at h
        split at h
        · injection h with h1 h2
          subst h2
          refine ⟨containerDirExists_filter_self _ _, ?_, acontains_aerase_self _ _⟩
          intro hmem
          have hmem2 : cid ∈ st.nsMounts.filter (fun m => decide (m ≠ cid)) := hmem
          rw [List.mem_filter] at hmem2
          simp at hmem2
        · exact absurd h (by simp)
      · rw [if_neg hns] at h
        split at h
        · injection h with h1 h2
          subst h2
          refine ⟨containerDirExists_filter_self _ _, ?_, acontains_aerase_self _ _⟩
          intro hmem
          exact hns (hinv2 hmem)
        · exact absurd h (by simp)

/-- C4 witness: a fully successful cleanup on a one-container state. -/
theorem cleanup_success_removes_container_witness :
    containerDirExists (⟨[], [], []⟩ : IsolatorState).disk "c1" = false ∧
      "c1" ∉ (⟨[], [], []⟩ : IsolatorState).nsMounts ∧
      acontains (⟨[], [], []⟩ : IsolatorState).infos "c1" = false :=
  cleanup_success_removes_container
    ⟨[("c1", ⟨[("net1", ⟨"net1", "eth0", none⟩)]⟩)],
      [⟨"c1", true, [⟨"net1", [⟨"eth0", some "x"⟩]⟩]⟩], ["c1"]⟩ "c1"
    (fun _ => .ready ()) ⟨[], [], []⟩
    (fun _ => by decide) (fun _ => by decide) rfl

/-- C8: for every per-network detach whose container and network are recorded
in `infos` and whose interface directory is on disk, if the DEL plugin
subprocess reaps with exit status 0 then the interface directory is removed
and `_detach` succeeds; if the exit status is non-zero or cannot be obtained,
`_detach` returns a failure and the state (hence the interface directory) is
untouched. -/
theorem detach_exit_status_behavior
    (st : IsolatorState) (cid net plugin : String)
    (status : FutureRes (Option Int)) (output : FutureRes String)
    (info : Info) (ni : NetworkInfo)
    (hinfo : alookup st.infos cid = some info)
    (hni : alookup info.networkInfos net = some ni)
    (hdir : interfaceDirExists st.disk cid net ni.ifName = true) :
    (status = .ready (some 0) →
      detachCont st cid net plugin status output =
        (.ok (), { st with disk := removeInterfaceDir st.disk cid net ni.ifName }) ∧
      interfaceDirExists (removeInterfaceDir st.disk cid net ni.ifName) cid net
        ni.ifName = false) ∧
    (status ≠ .ready (some 0) →
      ∃ e, detachCont st cid net plugin status output = (.error e, st)) := by
  have hif : infoIfName st cid net = ni.ifName := by
    simp [infoIfName, hinfo, hni]
  constructor
  · intro hstat
    subst hstat
    refine ⟨?_, interfaceDirExists_remove _ _ _ _⟩
    simp [detachCont, hif, hdir]
  · intro hstat
    cases status with
    | ready o =>
      cases o with
      | none => exact ⟨_, rfl⟩
      | some code =>
        by_cases hc : code = 0
        · subst hc; exact absurd rfl hstat
        · cases output with
          | ready out =>
            refine ⟨"The CNI plugin " ++ plugin ++ " failed to detach container" ++
              " from network " ++ net ++ ": " ++ out, ?_⟩
            simp [detachCont, hc]
          | failed m =>
            refine ⟨"Failed to read stdout from the CNI plugin " ++ plugin ++
              " subprocess: " ++ m, ?_⟩
            simp [detachCont, hc]
          | discarded =>
            refine ⟨"Failed to read stdout from the CNI plugin " ++ plugin ++
              " subprocess: discarded", ?_⟩
            simp [detachCont, hc]
    | failed m => exact ⟨_, rfl⟩
    | discarded => exact ⟨_, rfl⟩

/-- C8 witness: a DEL that reaps with exit status 0. -/
theorem detach_exit_status_behavior_witness :
    detachCont ⟨[("c1", ⟨[("net1", ⟨"net1", "eth0", none⟩)]⟩)],
        [⟨"c1", true, [⟨"net1", [⟨"eth0", some "x"⟩]⟩]⟩], ["c1"]⟩ "c1" "net1" "bridge"
      (.ready (some 0)) (.ready "") =
      (.ok (), ⟨[("c1", ⟨[("net1", ⟨"net1", "eth0", none⟩)]⟩)],
        removeInterfaceDir [⟨"c1", true, [⟨"net1", [⟨"eth0", some "x"⟩]⟩]⟩]
          "c1" "net1" "eth0", ["c1"]⟩) ∧
    interfaceDirExists (removeInterfaceDir
        [⟨"c1", true, [⟨"net1", [⟨"eth0", some "x"⟩]⟩]⟩] "c1" "net1" "eth0")
      "c1" "net1" "eth0" = false :=
  (detach_exit_status_behavior
    ⟨[("c1", ⟨[("net1", ⟨"net1", "eth0", none⟩)]⟩)],
      [⟨"c1", true, [⟨"net1", [⟨"eth0", some "x"⟩]⟩]⟩], ["c1"]⟩
    "c1" "net1" "bridge" (.ready (some 0)) (.ready "")
    ⟨[("net1", ⟨"net1", "eth0", none⟩)]⟩
    ⟨"net1", "eth0", none⟩ rfl rfl (by decide)).1 rfl

/-- C5 counterexample: a container directory that exists on disk but holds a
network subdirectory with an unknown name; `_recover` returns an error and
inserts nothing, refuting the unconditional direction "when the directory is
present, `_recover` inserts `infos[cid]`". -/
theorem recover_insert_iff_dir_counterexample :
    containerDirExists [⟨"cx", false, [⟨"bogus", []⟩]⟩] "cx" = true ∧
    recoverContainer (fun s => .ok ⟨s⟩) [("netZ", ⟨"/pz", "bridge"⟩)]
      [⟨"cx", false, [⟨"bogus", []⟩]⟩] [] "cx" =
      .error "Unknown CNI network name bogus" :=
  ⟨rfl, rfl⟩

/-- C5 (amended): `_recover(cid)` returns success without inserting when the
container directory is absent, and whenever the directory is present and
`_recover` returns success it has inserted `infos[cid]`, even when the
reconstructed attachment map is empty; so an entry is inserted exactly when
the directory exists and reconstruction succeeds. -/
theorem recover_inserts_iff_success
    (parse : String → Except String CniNetworkInfo)
    (configs : List (String × NetworkConfigInfo)) (disk : List ContainerDir)
    (infos : List (String × Info)) (cid : String) :
    (containerDirExists disk cid = false →
      recoverContainer parse configs disk infos cid = .ok infos) ∧
    (∀ infos1, recoverContainer parse configs disk infos cid = .ok infos1 →
      containerDirExists disk cid = true → acontains infos1 cid = true) := by
  constructor
  · intro habs
    cases hfd : findContainerDir disk cid with
    | none => unfold recoverContainer; rw [hfd]
    | some d =>
      rw [containerDirExists, hfd] at habs
      simp at habs
  · intro infos1 h hdir
    obtain ⟨i, _, hputs⟩ :=
      recoverContainer_ok_of_dir parse configs disk infos infos1 cid hdir h
    rw [hputs]
    exact acontains_aput_self _ _ _

/-- C5 witness: the directory is present, every network subdirectory has zero
interfaces, and the entry is still inserted (with an empty attachment map). -/
theorem recover_inserts_iff_success_witness :
    acontains [("cw", (⟨[]⟩ : Info))] "cw" = true :=
  (recover_inserts_iff_success (fun s => .ok ⟨s⟩) [("netW", ⟨"/pw", "bridge"⟩)]
    [⟨"cw", false, [⟨"netW", []⟩]⟩] [] "cw").2 [("cw", ⟨[]⟩)] rfl rfl

theorem recoverNetworks_error_of_unknown (parse : String → Except String CniNetworkInfo)
    (configs : List (String × NetworkConfigInfo)) :
    ∀ (nds : List NetworkDir) (acc : List (String × NetworkInfo)) (nd : NetworkDir),
    nd ∈ nds → acontains configs nd.netName = false →
    ∃ e, recoverNetworks parse configs nds acc = .error e := by
  intro nds
  induction nds with
  | nil => intro acc nd h _; simp at h
  | cons h0 rest ih =>
    intro acc nd hmem hunk
    by_cases hk : acontains configs h0.netName = false
    · exact ⟨"Unknown CNI network name " ++ h0.netName, by simp [recoverNetworks, hk]⟩
    · have hne : nd ≠ h0 := fun he => hk (he ▸ hunk)
      have hmem2 : nd ∈ rest := by
        cases List.mem_cons.mp hmem with
        | inl h1 => exact absurd h1 hne
        | inr h2 => exact h2
      have hk2 : acontains configs h0.netName = true := by
        cases hcc : acontains configs h0.netName with
        | false => exact absurd hcc hk
        | true => rfl
      cases hi : h0.interfaces with
      | nil =>
        simp only [recoverNetworks, hi, hk2, Bool.true_eq_false, if_false]
        exact ih acc nd hmem2 hunk
      | cons iface tail =>
        cases tail with
        | nil =>
          cases hinfo : iface.info with
          | none =>
            simp only [recoverNetworks, hi, hinfo, hk2, Bool.true_eq_false, if_false]
            exact ih _ nd hmem2 hunk
          | some raw =>
            cases hp : parse raw with
            | error e =>
              simp only [recoverNetworks, hi, hinfo, hp, hk2, Bool.true_eq_false, if_false]
              exact ⟨_, rfl⟩
            | ok ni =>
              simp only [recoverNetworks, hi, hinfo, hp, hk2, Bool.true_eq_false, if_false]
              exact ih _ nd hmem2 hunk
        | cons i2 t2 =>
          simp only [recoverNetworks, hi, hk2, Bool.true_eq_false, if_false]
          exact ⟨_, rfl⟩

theorem recoverKnown_error_of (parse : String → Except String CniNetworkInfo)
    (configs : List (String × NetworkConfigInfo)) (disk : List ContainerDir) :
    ∀ (kn : List String) (inf : List (String × Info)) (cid : String), cid ∈ kn →
    (∀ i : List (String × Info),
      ∃ e, recoverContainer parse configs disk i cid = .error e) →
    ∃ e, recoverKnown parse configs disk kn inf = .error e := by
  intro kn
  induction kn with
  | nil => intro inf cid h _; simp at h
  | cons c rest ih =>
    intro inf cid hmem herr
    simp only [recoverKnown]
    cases hr : recoverContainer parse configs disk inf c with
    | error e =>
      exact ⟨"Failed to recover CNI network information for container " ++
        c ++ ": " ++ e, rfl⟩
    | ok inf1 =>
      have hne : cid ≠ c := by
        intro he
        obtain ⟨e, he2⟩ := herr inf
        rw [← he] at hr
        rw [hr] at he2
        exact absurd he2 (by simp)
      have hmem2 : cid ∈ rest := by
        cases List.mem_cons.mp hmem with
        | inl h1 => exact absurd h1 hne
        | inr h2 => exact h2
      obtain ⟨e2, he2⟩ := ih inf1 cid hmem2 herr
      exact ⟨e2, he2⟩

/-- C9: for every container id whose on-disk directory contains a network
subdirectory whose name is not a key of the loaded network-config map,
`_recover(cid)` returns an error rather than reconstructing or skipping that
network, and a `recover` whose known states include that container fails as
a whole. -/
theorem recover_unknown_network_fails
    (parse : String → Except String CniNetworkInfo)
    (configs : List (String × NetworkConfigInfo)) (disk : List ContainerDir)
    (infos : List (String × Info)) (cid : String) (d : ContainerDir)
    (nd : NetworkDir) (known orphans : List String)
    (hfind : findContainerDir disk cid = some d)
    (hnd : nd ∈ d.networks)
    (hunk : acontains configs nd.netName = false)
    (hkn : cid ∈ known) :
    (∃ e, recoverContainer parse configs disk infos cid = .error e) ∧
    (∃ e2, recover parse configs disk infos known orphans = .error e2) := by
  have herr : ∀ i : List (String × Info),
      ∃ e, recoverContainer parse configs disk i cid = .error e := by
    intro i
    obtain ⟨e, he⟩ :=
      recoverNetworks_error_of_unknown parse configs d.networks [] nd hnd hunk
    exact ⟨e, by simp [recoverContainer, hfind, he]⟩
  constructor
  · exact herr infos
  · obtain ⟨e, he⟩ := recoverKnown_error_of parse configs disk known infos cid hkn herr
    exact ⟨e, by unfold recover; rw [he]⟩

/-- C9 witness: one container directory with a single unknown network. -/
theorem recover_unknown_network_fails_witness :
    (∃ e, recoverContainer (fun s => .ok ⟨s⟩) [("netA", ⟨"/pa", "bridge"⟩)]
      [⟨"c9w", false, [⟨"nox", []⟩]⟩] [] "c9w" = .error e) ∧
    (∃ e2, recover (fun s => .ok ⟨s⟩) [("netA", ⟨"/pa", "bridge"⟩)]
      [⟨"c9w", false, [⟨"nox", []⟩]⟩] [] ["c9w"] [] = .error e2) :=
  recover_unknown_network_fails _ _ _ [] "c9w" ⟨"c9w", false, [⟨"nox", []⟩]⟩
    ⟨"nox", []⟩ ["c9w"] [] rfl (by decide) (by decide) (by decide)

/-- C6: running `recover` twice in a row over the same on-disk checkpoint
state leaves the in-memory `infos` table as after one run and synthesizes no
further cleanups, so the combined effect of two runs equals that of one. -/
theorem recover_idempotent
    (parse : String → Except String CniNetworkInfo)
    (configs : List (String × NetworkConfigInfo)) (disk : List ContainerDir)
    (infos0 infos1 : List (String × Info)) (known orphans cleanups1 : List String)
    (h : recover parse configs disk infos0 known orphans = .ok (infos1, cleanups1)) :
    recover parse configs disk infos1 known orphans = .ok (infos1, []) := by
  unfold recover at h ⊢
  cases hk : recoverKnown parse configs disk known infos0 with
  | error e =>
    rw [hk] at h
    exact absurd h (by simp)
  | ok infA =>
    rw [hk] at h
    have h2 : recoverOrphans parse configs disk orphans disk infA [] =
        .ok (infos1, cleanups1) := h
    have hcov : ∀ d ∈ disk, acontains infos1 d.cid = true :=
      recoverOrphans_covers parse configs disk orphans disk infA [] infos1 cleanups1
        h2 (fun d hd => dirExists_of_mem disk d hd)
    have hknid : recoverKnown parse configs disk known infos1 = .ok infos1 := by
      apply recoverKnown_id
      intro c hc hdir
      obtain ⟨i, hci, hli⟩ :=
        recoverKnown_mem parse configs disk known infos0 infA hk c hc hdir
      have hp := recoverOrphans_lookup parse configs disk orphans disk infA []
        infos1 cleanups1 h2 c
      cases hp with
      | inl he => exact ⟨i, hci, by rw [he, hli]⟩
      | inr hex => exact hex
    rw [hknid]
    exact recoverOrphans_id parse configs disk orphans disk infos1 [] hcov

/-- C6 witness: one known container with an on-disk directory. -/
theorem recover_idempotent_witness :
    recover (fun s => .ok ⟨s⟩) [("netB", ⟨"/pb", "bridge"⟩)] [⟨"a", false, []⟩]
      [("a", (⟨[]⟩ : Info))] ["a"] [] = .ok ([("a", (⟨[]⟩ : Info))], []) :=
  recover_idempotent (fun s => .ok ⟨s⟩) [("netB", ⟨"/pb", "bridge"⟩)]
    [⟨"a", false, []⟩] [] [("a", ⟨[]⟩)] ["a"] [] [] rfl

/-- C10: for every unknown orphan container (a checkpoint directory whose id
is neither among the known states nor in the orphan set, and not already in
`infos`) in a successful `recover`, the id is among the synthesized cleanups,
and `recover` returns success regardless of the outcome of those synthesized
cleanups, whose futures it discards. -/
theorem recover_orphan_cleanup_discarded
    (parse : String → Except String CniNetworkInfo)
    (configs : List (String × NetworkConfigInfo)) (disk : List ContainerDir)
    (infos0 infos1 : List (String × Info)) (known orphans cleanups1 : List String)
    (d : ContainerDir) (outcome : String → FutureRes Unit)
    (h : recover parse configs disk infos0 known orphans = .ok (infos1, cleanups1))
    (hd : d ∈ disk) (hkn : d.cid ∉ known)
    (hfresh : acontains infos0 d.cid = false) (horph : d.cid ∉ orphans) :
    d.cid ∈ cleanups1 ∧
    recoverRun parse configs disk infos0 known orphans outcome = .ok () := by
  constructor
  · unfold recover at h
    cases hk : recoverKnown parse configs disk known infos0 with
    | error e =>
      rw [hk] at h
      exact absurd h (by simp)
    | ok infA =>
      rw [hk] at h
      have h2 : recoverOrphans parse configs disk orphans disk infA [] =
          .ok (infos1, cleanups1) := h
      have hfA : acontains infA d.cid = false := by
        cases hca : acontains infA d.cid with
        | false => rfl
        | true =>
          have hkey := recoverKnown_keys parse configs disk known infos0 infA hk
            d.cid hca
          cases hkey with
          | inl hc =>
            rw [hfresh] at hc
            exact absurd hc (by simp)
          | inr hm => exact absurd hm hkn
      exact recoverOrphans_cleanups parse configs disk orphans disk infA []
        infos1 cleanups1 h2 d hd horph hfA
  · unfold recoverRun
    rw [h]

/-- C10 witness: a checkpoint directory unknown to the agent; the synthesized
cleanup fails, yet recover returns success. -/
theorem recover_orphan_cleanup_discarded_witness :
    "b" ∈ ["b"] ∧
    recoverRun (fun s => .ok ⟨s⟩) [("netC", ⟨"/pc", "bridge"⟩)] [⟨"b", false, []⟩]
      [] [] [] (fun _ => FutureRes.failed "boom") = .ok () :=
  recover_orphan_cleanup_discarded (fun s => .ok ⟨s⟩) [("netC", ⟨"/pc", "bridge"⟩)]
    [⟨"b", false, []⟩] [] [("b", ⟨[]⟩)] [] [] ["b"] ⟨"b", false, []⟩
    (fun _ => FutureRes.failed "boom") rfl (by decide) (by decide) rfl (by decide)
